import Mathlib

/-!
Verification of the media-to-restaurant resolution pipeline of the MapBites
repository (`supabase/functions/process_media/index.ts`).

Modelling conventions:
* JavaScript strings are modelled as `List Char` (sequences of code points).
* JavaScript numbers are modelled as `Rat` (exact rational arithmetic); the
  scores computed by the pipeline are quotients of small naturals plus `1/10`
  bonuses, and the decision threshold `0.75` is the rational `3/4`.
* `String.prototype.toLowerCase` is modelled by `Char.toLower` (the ASCII
  `+32` shift on code points 65–90, identity elsewhere), applied pointwise.
* The regex class `\s` is modelled by `Char.isWhitespace`.
* External collaborators (OCR provider, place-search provider, the data
  store, and the host's URL parser used by the request validator) are
  modelled as oracles supplied in an environment record; the handler records
  every outbound call and every attempted write in its output.
-/

namespace MapBites

/-- Membership of a character in the regex class `[A-Z]` (code points 65–90). -/
def isUpperAZ (c : Char) : Bool := decide (65 ≤ c.toNat) && decide (c.toNat ≤ 90)

/-- Membership of a character in the regex class `[a-z]` (code points 97–122). -/
def isLowerAZ (c : Char) : Bool := decide (97 ≤ c.toNat) && decide (c.toNat ≤ 122)

/-- Membership of a character in the regex class `\w`, i.e. `[A-Za-z0-9_]`. -/
def isWordChar (c : Char) : Bool :=
  isUpperAZ c || isLowerAZ c || (decide (48 ≤ c.toNat) && decide (c.toNat ≤ 57)) ||
    decide (c = '_')

/-- JavaScript `str.split('\n')`: the list of `'\n'`-separated segments,
including empty ones (so the result is never empty). -/
def splitLines : List Char → List (List Char)
  | [] => [[]]
  | c :: cs =>
    if c = '\n' then [] :: splitLines cs
    else
      match splitLines cs with
      | [] => [[c]]
      | l :: ls => (c :: l) :: ls

/-- JavaScript `str.trim()`: whitespace stripped from both ends. -/
def trimWs (l : List Char) : List Char :=
  ((l.dropWhile Char.isWhitespace).reverse.dropWhile Char.isWhitespace).reverse

/-- JavaScript `haystack.includes(needle)` on strings: substring containment
(the empty needle is contained in every string). -/
def containsSub (needle : List Char) : List Char → Bool
  | [] => needle.isEmpty
  | c :: t => needle.isPrefixOf (c :: t) || containsSub needle t

/-- The `FOOD_KEYWORDS` constant of the source (the literal `'caf√©'` appears
verbatim in the source file). -/
def FOOD_KEYWORDS : List (List Char) :=
  ["burger".toList, "pizza".toList, "sushi".toList, "caf√©".toList, "cafe".toList,
   "bakery".toList, "bar".toList, "grill".toList, "kebab".toList, "ramen".toList,
   "taco".toList, "steak".toList, "bistro".toList, "brunch".toList,
   "restaurant".toList, "diner".toList, "eatery".toList, "kitchen".toList,
   "food".toList, "dining".toList, "cuisine".toList]

mutual

/-- State of the Title Case matcher after `[A-Z][a-z]` has been read: consume
further `[a-z]`, then either the end of the line or the `(\s+[A-Z][a-z]+)*`
tail. -/
def titleTail : List Char → Bool
  | [] => true
  | c :: cs => if isLowerAZ c then titleTail cs else c.isWhitespace && titleGap cs

/-- State of the Title Case matcher inside a `\s+` separator: skip further
whitespace, then expect the `[A-Z]` starting the next word. -/
def titleGap : List Char → Bool
  | [] => false
  | c :: cs => if c.isWhitespace then titleGap cs else isUpperAZ c && titleWordRest cs

/-- State of the Title Case matcher right after the `[A-Z]` of a word: expect
`[a-z]+`. -/
def titleWordRest : List Char → Bool
  | [] => false
  | c :: cs => isLowerAZ c && titleTail cs

end

/-- The test of the anchored regex `^[A-Z][a-z]+(\s+[A-Z][a-z]+)*$` used by the
candidate extractor.  The matcher is deterministic (no backtracking is needed)
because the character classes `[A-Z]`, `[a-z]` and `\s` are pairwise
disjoint. -/
def isTitleCaseLine : List Char → Bool
  | [] => false
  | c :: cs => isUpperAZ c && titleWordRest cs

/-- The per-line acceptance test of `extractPOICandidates`: a food keyword
(case-insensitively), or Title Case with length in `[3,50]`, or an `@`/`#`
indicator — and in every case neither `http` nor `www` may occur in the
line. -/
def lineQualifies (line : List Char) : Bool :=
  let hasFoodKeyword := FOOD_KEYWORDS.any fun kw =>
    containsSub (kw.map Char.toLower) (line.map Char.toLower)
  let isTitle := isTitleCaseLine line
  let reasonableLength := decide (3 ≤ line.length) && decide (line.length ≤ 50)
  let hasSocialIndicator := line.contains '@' || line.contains '#'
  (hasFoodKeyword || (isTitle && reasonableLength) || hasSocialIndicator) &&
    !containsSub ("http".toList) line && !containsSub ("www".toList) line

/-- The trimmed, non-empty lines of the input text (first two steps of
`extractPOICandidates`). -/
def poiLines (text : List Char) : List (List Char) :=
  ((splitLines text).map trimWs).filter fun l => decide (0 < l.length)

/-- The qualifying lines of the input text, in text order and with
duplicates still present (the `candidates` array of the source before the
final `new Set` pass). -/
def filteredPOILines (text : List Char) : List (List Char) :=
  (poiLines text).filter lineQualifies

/-- First-occurrence deduplication, the model of `[...new Set(candidates)]`
(a JavaScript `Set` iterates in insertion order). `seen` accumulates the
values already emitted. -/
def dedupFirst (seen : List (List Char)) : List (List Char) → List (List Char)
  | [] => []
  | x :: xs => if x ∈ seen then dedupFirst seen xs else x :: dedupFirst (x :: seen) xs

/-- `extractPOICandidates` of the source: qualifying lines, deduplicated
keeping first occurrences. -/
def extractPOICandidates (text : List Char) : List (List Char) :=
  dedupFirst [] (filteredPOILines text)

example : extractPOICandidates ("Joes Pizza\nhttp://x.com\npizza\npizza".toList) =
    ["Joes Pizza".toList, "pizza".toList] := by decide

example : extractPOICandidates ("".toList) = [] := by decide

example : isTitleCaseLine ("Joes Pizza".toList) = true := by decide

example : isTitleCaseLine ("joes pizza".toList) = false := by decide

example : isTitleCaseLine ("Joes ".toList) = false := by decide

/-- The index of the first occurrence of `x` in `l` (0 when absent past the
end); used to state that candidates appear in first-occurrence order. -/
def firstIdx (l : List (List Char)) (x : List Char) : Nat :=
  match l with
  | [] => 0
  | y :: ys => if y = x then 0 else firstIdx ys x + 1

theorem firstIdx_cons_self (y : List Char) (ys : List (List Char)) :
    firstIdx (y :: ys) y = 0 := by
  simp [firstIdx]

theorem firstIdx_cons_ne {y x : List Char} (ys : List (List Char)) (h : y ≠ x) :
    firstIdx (y :: ys) x = firstIdx ys x + 1 := by
  simp [firstIdx, h]

theorem mem_dedupFirst (x : List Char) (l seen : List (List Char)) :
    x ∈ dedupFirst seen l ↔ x ∈ l ∧ x ∉ seen := by
  induction l generalizing seen with
  | nil => simp [dedupFirst]
  | cons y ys ih =>
    by_cases hy : y ∈ seen
    · simp only [dedupFirst, if_pos hy, ih, List.mem_cons]
      constructor
      · rintro ⟨hx, hs⟩; exact ⟨Or.inr hx, hs⟩
      · rintro ⟨rfl | hx, hs⟩
        · exact absurd hy hs
        · exact ⟨hx, hs⟩
    · simp only [dedupFirst, if_neg hy, List.mem_cons, ih]
      constructor
      · rintro (rfl | ⟨hx, hns⟩)
        · exact ⟨Or.inl rfl, hy⟩
        · exact ⟨Or.inr hx, fun hs => hns (Or.inr hs)⟩
      · rintro ⟨rfl | hx, hs⟩
        · exact Or.inl rfl
        · by_cases hxy : x = y
          · exact Or.inl hxy
          · exact Or.inr ⟨hx, fun hc => hc.elim hxy hs⟩

theorem nodup_dedupFirst :
    ∀ (l seen : List (List Char)), (dedupFirst seen l).Nodup := by
  intro l
  induction l with
  | nil => intro seen; simp [dedupFirst]
  | cons y ys ih =>
    intro seen
    by_cases hy : y ∈ seen
    · rw [dedupFirst, if_pos hy]; exact ih seen
    · rw [dedupFirst, if_neg hy]
      refine List.nodup_cons.mpr ⟨?_, ih (y :: seen)⟩
      intro hmem
      exact ((mem_dedupFirst y ys (y :: seen)).mp hmem).2 (List.mem_cons_self y seen)

theorem pairwise_firstIdx_dedupFirst :
    ∀ (l seen : List (List Char)),
      (dedupFirst seen l).Pairwise fun a b => firstIdx l a < firstIdx l b := by
  intro l
  induction l with
  | nil => intro seen; simp [dedupFirst]
  | cons y ys ih =>
    intro seen
    by_cases hy : y ∈ seen
    · rw [dedupFirst, if_pos hy]
      refine ((ih seen).imp_of_mem ?_)
      intro a b ha hb hab
      have hay : y ≠ a := fun h => ((mem_dedupFirst a ys seen).mp ha).2 (h ▸ hy)
      have hby : y ≠ b := fun h => ((mem_dedupFirst b ys seen).mp hb).2 (h ▸ hy)
      rw [firstIdx_cons_ne _ hay, firstIdx_cons_ne _ hby]
      exact Nat.succ_lt_succ hab
    · rw [dedupFirst, if_neg hy]
      refine List.pairwise_cons.mpr ⟨?_, ?_⟩
      · intro b hb
        have hbmem := (mem_dedupFirst b ys (y :: seen)).mp hb
        have hby : y ≠ b := fun h => hbmem.2 (List.mem_cons.mpr (Or.inl h.symm))
        rw [firstIdx_cons_self, firstIdx_cons_ne _ hby]
        exact Nat.succ_pos _
      · refine ((ih (y :: seen)).imp_of_mem ?_)
        intro a b ha hb hab
        have hay : y ≠ a :=
          fun h => ((mem_dedupFirst a ys (y :: seen)).mp ha).2 (List.mem_cons.mpr (Or.inl h.symm))
        have hby : y ≠ b :=
          fun h => ((mem_dedupFirst b ys (y :: seen)).mp hb).2 (List.mem_cons.mpr (Or.inl h.symm))
        rw [firstIdx_cons_ne _ hay, firstIdx_cons_ne _ hby]
        exact Nat.succ_lt_succ hab

theorem lineQualifies_no_http_www {line : List Char} (h : lineQualifies line = true) :
    containsSub ("http".toList) line = false ∧ containsSub ("www".toList) line = false := by
  unfold lineQualifies at h
  simp only [Bool.and_eq_true, Bool.not_eq_true'] at h
  exact ⟨h.1.2, h.2⟩

/-- Claim C5: for every input text `t`, the candidate list
`extractPOICandidates t` contains no entry with `http` or `www` as a
substring, contains no duplicate entries under case-sensitive comparison, and
its entries appear in order of first occurrence in `t` (formally: their first
occurrence indices in the sequence of qualifying lines of `t`, which lists the
lines in text order, are strictly increasing). -/
theorem claim_C5 (t : List Char) :
    (∀ c ∈ extractPOICandidates t,
      containsSub ("http".toList) c = false ∧ containsSub ("www".toList) c = false) ∧
    (extractPOICandidates t).Nodup ∧
    (extractPOICandidates t).Pairwise
      (fun a b => firstIdx (filteredPOILines t) a < firstIdx (filteredPOILines t) b) := by
  refine ⟨?_, nodup_dedupFirst _ _, pairwise_firstIdx_dedupFirst _ _⟩
  intro c hc
  have hmem : c ∈ filteredPOILines t := ((mem_dedupFirst c _ _).mp hc).1
  exact lineQualifies_no_http_www (List.of_mem_filter hmem)

/-- `levenshteinDistance` of the source.  The source fills the standard
dynamic-programming table `matrix[j][i] = min(matrix[j][i-1] + 1,
matrix[j-1][i] + 1, matrix[j-1][i-1] + indicator)` with borders
`matrix[0][i] = i` and `matrix[j][0] = j` and returns the bottom-right cell;
every cell of that table obeys exactly this recurrence (cells are the edit
distances of string prefixes), expressed here as the equivalent structural
recursion on the two strings. -/
def levenshteinDistance : List Char → List Char → Nat
  | [], s2 => s2.length
  | c1 :: s1, [] => (c1 :: s1).length
  | c1 :: s1, c2 :: s2 =>
    min (levenshteinDistance (c1 :: s1) s2 + 1)
      (min (levenshteinDistance s1 (c2 :: s2) + 1)
        (levenshteinDistance s1 s2 + (if c1 = c2 then 0 else 1)))
termination_by s1 s2 => s1.length + s2.length
decreasing_by all_goals simp_arith

theorem levenshteinDistance_le (s1 s2 : List Char) :
    levenshteinDistance s1 s2 ≤ max s1.length s2.length := by
  induction s1, s2 using levenshteinDistance.induct with
  | case1 s2 => simp [levenshteinDistance]
  | case2 c1 s1 => simp [levenshteinDistance]
  | case3 c1 s1 c2 s2 ih1 ih2 ih3 =>
    rw [levenshteinDistance]
    simp only [List.length_cons] at *
    split <;> omega

/-- `calculateSimilarity` of the source: `1.0` when the case-folded strings
are equal, otherwise `(L - levenshtein(longer, shorter)) / L` where `L` is the
longer case-folded length (the source's `longer.length === 0` branch is kept
verbatim even though it is unreachable after the equality test). -/
def calculateSimilarity (str1 str2 : List Char) : Rat :=
  let s1 := str1.map Char.toLower
  let s2 := str2.map Char.toLower
  if s1 = s2 then 1
  else
    let longer := if s2.length < s1.length then s1 else s2
    let shorter := if s2.length < s1.length then s2 else s1
    if longer.length = 0 then 1
    else ((longer.length : Rat) - (levenshteinDistance longer shorter : Rat)) /
      (longer.length : Rat)

theorem similarity_frac_nonneg (longer shorter : List Char)
    (h : shorter.length ≤ longer.length) :
    0 ≤ ((longer.length : Rat) - (levenshteinDistance longer shorter : Rat)) /
      (longer.length : Rat) := by
  apply div_nonneg _ (Nat.cast_nonneg _)
  rw [sub_nonneg]
  have hd : levenshteinDistance longer shorter ≤ longer.length := by
    have := levenshteinDistance_le longer shorter
    omega
  exact_mod_cast hd

theorem calculateSimilarity_nonneg (a b : List Char) : 0 ≤ calculateSimilarity a b := by
  unfold calculateSimilarity
  simp only
  split
  · exact zero_le_one
  · by_cases hc : (b.map Char.toLower).length < (a.map Char.toLower).length
    · simp only [if_pos hc]
      split
      · exact zero_le_one
      · exact similarity_frac_nonneg _ _ (Nat.le_of_lt hc)
    · simp only [if_neg hc]
      split
      · exact zero_le_one
      · exact similarity_frac_nonneg _ _ (by omega)

example : calculateSimilarity ("Food".toList) ("fool".toList) = 3/4 := by
  with_unfolding_all decide

example : calculateSimilarity ("pizza".toList) ("pizza".toList) = 1 := by
  with_unfolding_all decide

/-- `PlaceSearchResult` of the source. -/
structure PlaceResult where
  name : List Char
  address : List Char
  lat : Rat
  lng : Rat
  place_id : List Char
  rating : Option Rat
  types : Option (List (List Char))
deriving DecidableEq

/-- A place together with the score attached by the scorer
(`{ ...place, score }`). -/
structure ScoredPlace where
  place : PlaceResult
  score : Rat
deriving DecidableEq

/-- The category-bonus test of the scorer: `place.types?.some(type =>
FOOD_KEYWORDS.some(keyword => type.includes(keyword)))` (unlike the candidate
extractor this check is case-sensitive in the source). -/
def typesBonusHolds (p : PlaceResult) : Bool :=
  match p.types with
  | none => false
  | some ts => ts.any fun t => FOOD_KEYWORDS.any fun kw => containsSub kw t

/-- The rating-bonus test of the scorer: `place.rating && place.rating > 4.0`
(a missing rating gives no bonus; the falsy rating `0` fails `> 4.0` anyway). -/
def ratingBonusHolds (p : PlaceResult) : Bool :=
  match p.rating with
  | none => false
  | some r => decide (4 < r)

/-- The body of the scorer's inner loop: the similarity of one candidate
against the place name, plus the two `+0.1` bonuses. -/
def candidateScore (p : PlaceResult) (candidate : List Char) : Rat :=
  let similarity := calculateSimilarity candidate p.name
  let score := similarity
  let score := if typesBonusHolds p then score + 1/10 else score
  let score := if ratingBonusHolds p then score + 1/10 else score
  score

/-- The scorer's per-place accumulation: `maxScore` starts at `0` and takes
the maximum of the loop body over all candidates. -/
def placeScore (cands : List (List Char)) (p : PlaceResult) : Rat :=
  cands.foldl (fun maxScore c => max maxScore (candidateScore p c)) 0

/-- The ordering realised by the sort comparator `(a, b) => b.score - a.score`:
`a` may precede `b` exactly when `b.score ≤ a.score`. -/
def scoreGE (a b : ScoredPlace) : Prop := b.score ≤ a.score

instance : DecidableRel scoreGE := fun a b => inferInstanceAs (Decidable (b.score ≤ a.score))

instance : IsTotal ScoredPlace scoreGE := ⟨fun a b => le_total b.score a.score⟩

instance : IsTrans ScoredPlace scoreGE := ⟨fun _ _ _ h1 h2 => le_trans h2 h1⟩

/-- `scorePlaceCandidates` of the source: score each place, then sort by
descending score.  JavaScript `Array.prototype.sort` is stable (ECMA-262),
and with the comparator `(a, b) => b.score - a.score` any stable sort yields
the same list; it is modelled by a stable insertion sort on `scoreGE`. -/
def scorePlaceCandidates (cands : List (List Char)) (places : List PlaceResult) :
    List ScoredPlace :=
  List.insertionSort scoreGE (places.map fun p => ⟨p, placeScore cands p⟩)

/-- The maximum similarity of a place name over a list of candidates (`0` for
the empty list). -/
def maxSimilarity (cands : List (List Char)) (name : List Char) : Rat :=
  cands.foldl (fun m c => max m (calculateSimilarity c name)) 0

/-- The two additive bonuses of the scorer, as a per-place constant. -/
def placeBonus (p : PlaceResult) : Rat :=
  (if typesBonusHolds p then 1/10 else 0) + (if ratingBonusHolds p then 1/10 else 0)

theorem placeBonus_nonneg (p : PlaceResult) : 0 ≤ placeBonus p := by
  unfold placeBonus; split <;> split <;> norm_num

theorem candidateScore_eq (p : PlaceResult) (c : List Char) :
    candidateScore p c = calculateSimilarity c p.name + placeBonus p := by
  unfold candidateScore placeBonus
  split <;> split <;> ring

theorem candidateScore_nonneg (p : PlaceResult) (c : List Char) :
    0 ≤ candidateScore p c := by
  rw [candidateScore_eq]
  exact add_nonneg (calculateSimilarity_nonneg c p.name) (placeBonus_nonneg p)

theorem foldl_max_le_init (f : List Char → Rat) :
    ∀ (l : List (List Char)) (a : Rat), a ≤ l.foldl (fun m x => max m (f x)) a
  | [], a => le_refl a
  | x :: xs, a => le_trans (le_max_left a (f x)) (foldl_max_le_init f xs _)

theorem le_foldl_max (f : List Char → Rat) :
    ∀ (l : List (List Char)) (a : Rat) (x : List Char), x ∈ l →
      f x ≤ l.foldl (fun m y => max m (f y)) a
  | y :: ys, a, x, hx => by
    rcases List.mem_cons.mp hx with rfl | hmem
    · exact le_trans (le_max_right a (f x)) (foldl_max_le_init f ys _)
    · exact le_foldl_max f ys _ x hmem

theorem foldl_max_attained (f : List Char → Rat) :
    ∀ (l : List (List Char)) (a : Rat),
      l.foldl (fun m x => max m (f x)) a = a ∨
      ∃ c ∈ l, l.foldl (fun m x => max m (f x)) a = f c
  | [], a => Or.inl rfl
  | x :: xs, a => by
    rcases foldl_max_attained f xs (max a (f x)) with h | ⟨c, hc, h⟩
    · rcases max_choice a (f x) with h2 | h2
      · exact Or.inl (by rw [List.foldl_cons, h, h2])
      · exact Or.inr ⟨x, List.mem_cons_self x xs, by rw [List.foldl_cons, h, h2]⟩
    · exact Or.inr ⟨c, List.mem_cons_of_mem _ hc, by rw [List.foldl_cons, h]⟩

theorem foldl_max_add (f : List Char → Rat) (b : Rat) :
    ∀ (l : List (List Char)) (a : Rat),
      l.foldl (fun m x => max m (f x + b)) (a + b) =
      l.foldl (fun m x => max m (f x)) a + b
  | [], _ => rfl
  | x :: xs, a => by
    rw [List.foldl_cons, List.foldl_cons, max_add_add_right, foldl_max_add f b xs]

theorem placeScore_eq (cands : List (List Char)) (p : PlaceResult) (h : cands ≠ []) :
    placeScore cands p = maxSimilarity cands p.name + placeBonus p := by
  obtain ⟨c, cs, rfl⟩ := List.exists_cons_of_ne_nil h
  have hb : 0 ≤ placeBonus p := placeBonus_nonneg p
  have hs : 0 ≤ calculateSimilarity c p.name := calculateSimilarity_nonneg c p.name
  unfold placeScore maxSimilarity
  rw [List.foldl_cons, List.foldl_cons]
  simp only [candidateScore_eq]
  rw [max_eq_right (add_nonneg hs hb), max_eq_right hs]
  exact foldl_max_add (fun x => calculateSimilarity x p.name) (placeBonus p) cs
    (calculateSimilarity c p.name)

/-- Claim C2: for every (non-empty) candidate list and every place list, the
scorer assigns each place a score equal to the maximum similarity of the
place's name over all candidates, plus additive bonuses applied once per
place (not once per candidate): `+0.1` when some category contains a food
keyword and `+0.1` when the rating is present and exceeds `4.0`. -/
theorem claim_C2 (cands : List (List Char)) (places : List PlaceResult)
    (h : cands ≠ []) :
    ∀ e ∈ scorePlaceCandidates cands places,
      (∀ c ∈ cands, calculateSimilarity c e.place.name ≤ maxSimilarity cands e.place.name) ∧
      (∃ c ∈ cands, maxSimilarity cands e.place.name = calculateSimilarity c e.place.name) ∧
      e.score = maxSimilarity cands e.place.name +
        ((if typesBonusHolds e.place then (1 : Rat)/10 else 0) +
         (if ratingBonusHolds e.place then (1 : Rat)/10 else 0)) := by
  intro e he
  have hperm := List.perm_insertionSort scoreGE
    (places.map fun p => (⟨p, placeScore cands p⟩ : ScoredPlace))
  have hmem : e ∈ places.map fun p => (⟨p, placeScore cands p⟩ : ScoredPlace) :=
    hperm.mem_iff.mp he
  obtain ⟨p, hp, rfl⟩ := List.mem_map.mp hmem
  refine ⟨?_, ?_, ?_⟩
  · intro c hc
    exact le_foldl_max (fun x => calculateSimilarity x p.name) cands 0 c hc
  · rcases foldl_max_attained (fun c => calculateSimilarity c p.name) cands 0 with h0 | hex
    · obtain ⟨c, cs, rfl⟩ := List.exists_cons_of_ne_nil h
      refine ⟨c, List.mem_cons_self c cs, ?_⟩
      have h1 : calculateSimilarity c p.name ≤ maxSimilarity (c :: cs) p.name :=
        le_foldl_max (fun x => calculateSimilarity x p.name) (c :: cs) 0 c
          (List.mem_cons_self c cs)
      have h2 : maxSimilarity (c :: cs) p.name = 0 := h0
      exact h2.trans (le_antisymm (h2 ▸ h1) (calculateSimilarity_nonneg c p.name)).symm
    · exact hex
  · show placeScore cands p = _
    rw [placeScore_eq cands p h]
    rfl

/-- Stability of one insertion step of the sort: inserting `a` does not
reorder the entries of any fixed score `s`, because every entry skipped over
by `orderedInsert` has a score strictly above `a.score`. -/
theorem filter_score_orderedInsert (s : Rat) (a : ScoredPlace) :
    ∀ l : List ScoredPlace,
      (List.orderedInsert scoreGE a l).filter (fun e => decide (e.score = s)) =
      (a :: l).filter (fun e => decide (e.score = s))
  | [] => rfl
  | b :: t => by
    rw [List.orderedInsert]
    by_cases hab : scoreGE a b
    · rw [if_pos hab]
    · rw [if_neg hab]
      have hrec := filter_score_orderedInsert s a t
      have hnot : ¬(a.score = s ∧ b.score = s) := by
        rintro ⟨ha2, hb2⟩
        exact hab (by unfold scoreGE; rw [ha2, hb2])
      by_cases hqa : a.score = s
      · have hqb : ¬ b.score = s := fun hb2 => hnot ⟨hqa, hb2⟩
        simp [List.filter_cons, hrec, hqa, hqb]
      · simp [List.filter_cons, hrec, hqa]

theorem filter_score_insertionSort (s : Rat) :
    ∀ l : List ScoredPlace,
      (List.insertionSort scoreGE l).filter (fun e => decide (e.score = s)) =
      l.filter (fun e => decide (e.score = s))
  | [] => rfl
  | a :: l => by
    rw [List.insertionSort, filter_score_orderedInsert, List.filter_cons, List.filter_cons,
      filter_score_insertionSort s l]

/-- Claim C9: the scorer's output is sorted non-increasingly by final score,
and it is stable: for every score value `s`, the entries of score `s` appear
in the same order as in the scored input list (places in input order). -/
theorem claim_C9 (cands : List (List Char)) (places : List PlaceResult) :
    (scorePlaceCandidates cands places).Pairwise (fun a b => b.score ≤ a.score) ∧
    ∀ s : Rat,
      (scorePlaceCandidates cands places).filter (fun e => decide (e.score = s)) =
      (places.map fun p => (⟨p, placeScore cands p⟩ : ScoredPlace)).filter
        (fun e => decide (e.score = s)) := by
  constructor
  · exact List.sorted_insertionSort scoreGE _
  · intro s
    exact filter_score_insertionSort s _

/-- `OCRResult` of the source. -/
structure OCRRes where
  text : List Char
  confidence : Rat
deriving DecidableEq

/-- The request body after JSON parsing (`ProcessMediaRequest`). -/
structure ReqBody where
  media_id : List Char
  frame_urls : List (List Char)
  country : Option (List Char)
  city : Option (List Char)
deriving DecidableEq

/-- A hexadecimal digit of the (case-insensitive) UUID regex of the pinned
zod version: `[a-f0-9]` under the `i` flag. -/
def isHexDigitChar (c : Char) : Bool :=
  (decide ('0' ≤ c) && decide (c ≤ '9')) || (decide ('a' ≤ c) && decide (c ≤ 'f')) ||
    (decide ('A' ≤ c) && decide (c ≤ 'F'))

/-- Consume exactly `n` hexadecimal digits, returning the rest of the input. -/
def hexChunk : Nat → List Char → Option (List Char)
  | 0, cs => some cs
  | _ + 1, [] => none
  | n + 1, c :: cs => if isHexDigitChar c then hexChunk n cs else none

/-- Consume a literal `-`. -/
def dashChunk : List Char → Option (List Char)
  | '-' :: cs => some cs
  | _ => none

/-- The model of `z.string().uuid()` of the pinned zod version, whose UUID
regex is `^([a-f0-9]{8}-[a-f0-9]{4}-[1-5][a-f0-9]{3}-[a-f0-9]{4}-[a-f0-9]{12}
|00000000-0000-0000-0000-000000000000)$` with the `i` flag. -/
def isUUID (cs : List Char) : Bool :=
  (do
    let r ← hexChunk 8 cs
    let r ← dashChunk r
    let r ← hexChunk 4 r
    let r ← dashChunk r
    let r ← (match r with
      | c :: t => if decide ('1' ≤ c) && decide (c ≤ '5') then some t else none
      | [] => none)
    let r ← hexChunk 3 r
    let r ← dashChunk r
    let r ← hexChunk 4 r
    let r ← dashChunk r
    let r ← hexChunk 12 r
    if r.isEmpty then some () else none).isSome ||
  decide (cs = "00000000-0000-0000-0000-000000000000".toList)

example : isUUID ("123e4567-e89b-12d3-a456-426614174000".toList) = true := by decide

example : isUUID ("not-a-uuid".toList) = false := by decide

/-- The model of `ProcessMediaSchema.parse`: `media_id` must be a UUID and
every entry of `frame_urls` must pass the host's URL parser (zod's `url()`
check runs `new URL(...)`, modelled by the oracle `isURL`); `country` and
`city` are optional strings and need no check. -/
def validateReq (isURL : List Char → Bool) (body : ReqBody) : Bool :=
  isUUID body.media_id && body.frame_urls.all isURL

/-- One response of the place-search provider: the transport status
(`response.ok`), the provider status field (`data.status`) and the parsed
result records. -/
structure SearchResp where
  httpOk : Bool
  status : List Char
  results : List PlaceResult
deriving DecidableEq

/-- The data-store oracle: whether each kind of write succeeds, the id
produced for an inserted restaurant row, and the `user_id` returned by the
`media` lookup used for `created_by`. -/
structure DbEnv where
  userId : Option (List Char)
  restaurantInsertOk : Bool
  restaurantId : List Char
  mediaUpdateOk : Bool
  cacheInsertOk : Bool
deriving DecidableEq

/-- The environment of one request: the host URL parser, the
`FEATURE_USE_TESSERACT` flag, the OCR provider (an `Except` models a call
that may throw), the `GOOGLE_MAPS_API_KEY` configuration, the place-search
provider keyed by the full query string, and the data store. -/
structure Env where
  isURL : List Char → Bool
  useTesseract : Bool
  ocr : List Char → Except Unit OCRRes
  mapsKey : Option (List Char)
  provider : List Char → SearchResp
  db : DbEnv

/-- Query construction of `searchPlaces`: `query + " in " + city` when a
city hint is present (`country` is accepted but never used by the source). -/
def buildSearchQuery (query : List Char) (city : Option (List Char)) : List Char :=
  match city with
  | some c => query ++ (" in ".toList) ++ c
  | none => query

/-- `searchPlaces` of the source.  Throws (`Except.error`) when the API key
is missing or the transport fails; returns the empty list together with a
logged warning (the `Bool` component) when the provider status is not `OK`;
otherwise returns the provider's records. -/
def searchPlaces (env : Env) (query : List Char) (country city : Option (List Char)) :
    Except (List Char) (List PlaceResult × Bool) :=
  match env.mapsKey with
  | none => .error ("GOOGLE_MAPS_API_KEY not configured".toList)
  | some _ =>
    let resp := env.provider (buildSearchQuery query city)
    if resp.httpOk = false then .error ("Places API error".toList)
    else if resp.status ≠ "OK".toList then .ok ([], true)
    else .ok (resp.results, false)

/-- Claim C7: whenever the place-search provider responds (the key is
configured and the transport succeeded) with a non-success provider status,
`searchPlaces` returns the empty list — it does not throw to its caller —
and logs a warning. -/
theorem claim_C7 (env : Env) (query : List Char) (country city : Option (List Char))
    (k : List Char) (hk : env.mapsKey = some k)
    (hhttp : (env.provider (buildSearchQuery query city)).httpOk = true)
    (hstatus : (env.provider (buildSearchQuery query city)).status ≠ "OK".toList) :
    searchPlaces env query country city = .ok ([], true) := by
  unfold searchPlaces
  rw [hk]
  dsimp only
  rw [if_neg (by simp [hhttp])]
  exact if_pos hstatus

/-- One collapse step of `replace(/\s+/g, ' ')`: a whitespace character
directly followed by more whitespace is dropped, any remaining whitespace
becomes a single `' '`. -/
def collapseWs : List Char → List Char
  | [] => []
  | c :: cs =>
    if c.isWhitespace then
      match cs with
      | c2 :: _ => if c2.isWhitespace then collapseWs cs else ' ' :: collapseWs cs
      | [] => [' ']
    else c :: collapseWs cs

/-- The normalisation step of the handler:
`allText.replace(/[^\w\s]/g, ' ').replace(/\s+/g, ' ').trim()`. -/
def normalizeText (cs : List Char) : List Char :=
  trimWs (collapseWs (cs.map fun c => if isWordChar c || c.isWhitespace then c else ' '))

example : normalizeText ("  joe:s   pizza! ".toList) = "joe s pizza".toList := by decide

/-- Per-frame OCR as run by the handler: the Tesseract placeholder always
yields an empty result, and a throwing Vision call is caught and replaced by
`{ text: '', confidence: 0 }`. -/
def ocrResultOf (env : Env) (frameUrl : List Char) : OCRRes :=
  if env.useTesseract then ⟨[], 0⟩
  else
    match env.ocr frameUrl with
    | .ok r => r
    | .error _ => ⟨[], 0⟩

/-- `allText` of the handler: the frame texts joined by a single space,
lower-cased. -/
def allTextOf (env : Env) (body : ReqBody) : List Char :=
  (List.intercalate ([' ']) ((body.frame_urls.map (ocrResultOf env)).map OCRRes.text)).map
    Char.toLower

/-- The candidate list computed by the handler. -/
def pipelineCandidates (env : Env) (body : ReqBody) : List (List Char) :=
  extractPOICandidates (allTextOf env body)

/-- The accumulation loop over the first three candidates
(`candidates.slice(0, 3)`): search results are appended in order; a throwing
search is logged and skipped. -/
def gatherPlaces (env : Env) (body : ReqBody) (cands : List (List Char)) :
    List PlaceResult :=
  (cands.take 3).foldl (fun acc c =>
    match searchPlaces env c body.country body.city with
    | .ok (ps, _) => acc ++ ps
    | .error _ => acc) []

/-- One attempted write to the data store, carrying the values written and
whether the store reported success.  The handler inspects the flag only for
the restaurant insert; the media updates and the cache insert are
fire-and-forget in the source (their `error` field is never read). -/
inductive DbWrite where
  | mediaUpdate (media_id status ocr_text : List Char)
      (restaurant_id : Option (List Char)) (ok : Bool)
  | restaurantInsert (name address : List Char) (lat lng : Rat) (place_id : List Char)
      (created_by : Option (List Char)) (ok : Bool)
  | cacheInsert (normalized_query : List Char) (country city : Option (List Char))
      (place_id name address : List Char) (lat lng : Rat) (score : Rat) (ok : Bool)
deriving DecidableEq

def DbWrite.isRestaurantInsert : DbWrite → Bool
  | .restaurantInsert .. => true
  | _ => false

/-- One entry of the `candidates` array of a `needs_confirmation` response. -/
structure RespCandidate where
  name : List Char
  address : List Char
  lat : Rat
  lng : Rat
  place_id : List Char
  score : Rat
deriving DecidableEq

/-- The projection used to serialise a scored place into the response. -/
def RespCandidate.ofScored (e : ScoredPlace) : RespCandidate :=
  ⟨e.place.name, e.place.address, e.place.lat, e.place.lng, e.place.place_id, e.score⟩

/-- The response of the handler: one of the two success shapes of
`ProcessMediaResponse`, or the catch-all error object. -/
inductive Resp where
  | confirmed (restaurant_id : List Char) (score : Rat)
  | needsConfirmation (candidates : List RespCandidate) (ocr_text : List Char)
  | serverError (msg : List Char)
deriving DecidableEq

/-- The HTTP status code attached to each response shape: both success shapes
are returned with status 200, and everything reaching the top-level catch is
returned with status 500. -/
def Resp.statusCode : Resp → Nat
  | .confirmed .. => 200
  | .needsConfirmation .. => 200
  | .serverError .. => 500

/-- Whether a response carries a 4xx (client-error) status code. -/
def isClientError (r : Resp) : Bool :=
  decide (400 ≤ r.statusCode) && decide (r.statusCode < 500)

/-- The observable outcome of one request: the response, every attempted
store write in order, and the outbound OCR and place-search calls. -/
structure HandlerOut where
  response : Resp
  writes : List DbWrite
  ocrCalls : List (List Char)
  searchCalls : List (List Char)
deriving DecidableEq

/-- The `needs_confirmation` exit of the handler, shared by the
empty-candidates, empty-places and low-score branches: update the media row
(status and normalised text; the write's outcome is not inspected) and
return the given candidate list. -/
def needsConfirmationOut (env : Env) (body : ReqBody) (normalized : List Char)
    (cs : List RespCandidate) (ocrCalls searchCalls : List (List Char)) : HandlerOut :=
  { response := .needsConfirmation cs normalized,
    writes := [.mediaUpdate body.media_id ("needs_confirmation".toList) normalized none
      env.db.mediaUpdateOk],
    ocrCalls := ocrCalls,
    searchCalls := searchCalls }

/-- The auto-confirm branch: insert the restaurant row — a reported insert
error is thrown and becomes a 500 response with no further writes — then
update the media row (status `done`, link to the new restaurant) and insert
the cache entry keyed by `candidates[0].toLowerCase()`; the outcomes of
those two writes are not inspected. -/
def confirmOut (env : Env) (body : ReqBody) (normalized : List Char)
    (cands : List (List Char)) (best : ScoredPlace)
    (ocrCalls searchCalls : List (List Char)) : HandlerOut :=
  if env.db.restaurantInsertOk then
    { response := .confirmed env.db.restaurantId best.score,
      writes := [
        .restaurantInsert best.place.name best.place.address best.place.lat best.place.lng
          best.place.place_id env.db.userId true,
        .mediaUpdate body.media_id ("done".toList) normalized (some env.db.restaurantId)
          env.db.mediaUpdateOk,
        .cacheInsert ((cands.headD []).map Char.toLower) body.country body.city
          best.place.place_id best.place.name best.place.address best.place.lat
          best.place.lng best.score env.db.cacheInsertOk],
      ocrCalls := ocrCalls,
      searchCalls := searchCalls }
  else
    { response := .serverError ("Failed to create restaurant".toList),
      writes := [.restaurantInsert best.place.name best.place.address best.place.lat
        best.place.lng best.place.place_id env.db.userId false],
      ocrCalls := ocrCalls,
      searchCalls := searchCalls }

/-- The request handler (`serve` callback) for a POST request with a parsed
JSON body: validation, per-frame OCR with per-frame error recovery,
aggregation and normalisation, candidate extraction, place search over the
first three candidates, scoring, and the `0.75`-threshold decision.
`ocrCalls` lists the frames sent to the OCR provider (none under the
Tesseract placeholder) and `searchCalls` the provider queries issued (none
when the Maps key is missing, since `searchPlaces` throws before its
transport call). -/
def processMedia (env : Env) (body : ReqBody) : HandlerOut :=
  if validateReq env.isURL body then
    let ocrCalls := if env.useTesseract then [] else body.frame_urls
    let allText := allTextOf env body
    let normalized := normalizeText allText
    let cands := extractPOICandidates allText
    if cands.isEmpty then
      needsConfirmationOut env body normalized [] ocrCalls []
    else
      let searchCalls := if env.mapsKey.isSome then
        (cands.take 3).map (fun c => buildSearchQuery c body.city) else []
      let allPlaces := gatherPlaces env body cands
      if allPlaces.isEmpty then
        needsConfirmationOut env body normalized [] ocrCalls searchCalls
      else
        let top := (scorePlaceCandidates cands allPlaces).take 3
        match top.head? with
        | some best =>
          if 3/4 ≤ best.score then
            confirmOut env body normalized cands best ocrCalls searchCalls
          else
            needsConfirmationOut env body normalized (top.map RespCandidate.ofScored)
              ocrCalls searchCalls
        | none =>
          needsConfirmationOut env body normalized (top.map RespCandidate.ofScored)
            ocrCalls searchCalls
  else
    { response := .serverError ("Invalid request body".toList),
      writes := [], ocrCalls := [], searchCalls := [] }

theorem isEmpty_false_of_ne_nil {α : Type _} {l : List α} (h : l ≠ []) :
    l.isEmpty = false := by
  cases l with
  | nil => exact absurd rfl h
  | cons a t => rfl

/-- Reduction of the handler on a run that reaches the scoring step with a
top score at or above the threshold: the outcome is the auto-confirm
branch. -/
theorem processMedia_eq_confirmOut (env : Env) (body : ReqBody) (best : ScoredPlace)
    (rest : List ScoredPlace)
    (hv : validateReq env.isURL body = true)
    (hc : extractPOICandidates (allTextOf env body) ≠ [])
    (hp : gatherPlaces env body (extractPOICandidates (allTextOf env body)) ≠ [])
    (hs : scorePlaceCandidates (extractPOICandidates (allTextOf env body))
        (gatherPlaces env body (extractPOICandidates (allTextOf env body))) = best :: rest)
    (hscore : 3/4 ≤ best.score) :
    processMedia env body =
      confirmOut env body (normalizeText (allTextOf env body))
        (extractPOICandidates (allTextOf env body)) best
        (if env.useTesseract then [] else body.frame_urls)
        (if env.mapsKey.isSome then
          ((extractPOICandidates (allTextOf env body)).take 3).map
            (fun c => buildSearchQuery c body.city)
        else []) := by
  unfold processMedia
  rw [if_pos hv, if_neg (by simp [isEmpty_false_of_ne_nil hc]),
    if_neg (by simp [isEmpty_false_of_ne_nil hp]), hs]
  simp only [List.take_succ_cons, List.head?_cons]
  rw [if_pos hscore]

/-- Reduction of the handler on a run that reaches the scoring step with a
top score strictly below the threshold: the outcome is the
`needs_confirmation` branch carrying the serialised top-3 list. -/
theorem processMedia_eq_needsOut (env : Env) (body : ReqBody) (best : ScoredPlace)
    (rest : List ScoredPlace)
    (hv : validateReq env.isURL body = true)
    (hc : extractPOICandidates (allTextOf env body) ≠ [])
    (hp : gatherPlaces env body (extractPOICandidates (allTextOf env body)) ≠ [])
    (hs : scorePlaceCandidates (extractPOICandidates (allTextOf env body))
        (gatherPlaces env body (extractPOICandidates (allTextOf env body))) = best :: rest)
    (hscore : ¬ 3/4 ≤ best.score) :
    processMedia env body =
      needsConfirmationOut env body (normalizeText (allTextOf env body))
        (((best :: rest).take 3).map RespCandidate.ofScored)
        (if env.useTesseract then [] else body.frame_urls)
        (if env.mapsKey.isSome then
          ((extractPOICandidates (allTextOf env body)).take 3).map
            (fun c => buildSearchQuery c body.city)
        else []) := by
  unfold processMedia
  rw [if_pos hv, if_neg (by simp [isEmpty_false_of_ne_nil hc]),
    if_neg (by simp [isEmpty_false_of_ne_nil hp]), hs]
  simp only [List.take_succ_cons, List.head?_cons]
  rw [if_neg hscore]

/-- Claim C1: in every resolution run that reaches the scoring step (valid
request, non-empty candidates, non-empty accumulated places), if the
top-scoring place's final score is at least `0.75` the outcome is
`confirmed` — a restaurant record is inserted and linked and the media status
is set to `done` — and if the top score is strictly below `0.75` the outcome
is `needs_confirmation` with at most 3 scored candidates and no restaurant
insert.  The `≥` comparison makes the boundary exact: a top score of exactly
`3/4` confirms. -/
theorem claim_C1 (env : Env) (body : ReqBody) (best : ScoredPlace)
    (hv : validateReq env.isURL body = true)
    (hc : extractPOICandidates (allTextOf env body) ≠ [])
    (hp : gatherPlaces env body (extractPOICandidates (allTextOf env body)) ≠ [])
    (hb : (scorePlaceCandidates (extractPOICandidates (allTextOf env body))
        (gatherPlaces env body (extractPOICandidates (allTextOf env body)))).head? =
      some best) :
    (3/4 ≤ best.score → env.db.restaurantInsertOk = true →
      (processMedia env body).response = .confirmed env.db.restaurantId best.score ∧
      DbWrite.restaurantInsert best.place.name best.place.address best.place.lat
        best.place.lng best.place.place_id env.db.userId true ∈
        (processMedia env body).writes ∧
      DbWrite.mediaUpdate body.media_id ("done".toList) (normalizeText (allTextOf env body))
        (some env.db.restaurantId) env.db.mediaUpdateOk ∈ (processMedia env body).writes) ∧
    (best.score < 3/4 →
      ∃ cs : List RespCandidate,
        (processMedia env body).response =
          .needsConfirmation cs (normalizeText (allTextOf env body)) ∧
        cs.length ≤ 3 ∧
        ∀ w ∈ (processMedia env body).writes, w.isRestaurantInsert = false) := by
  obtain ⟨rest, hs⟩ : ∃ rest, scorePlaceCandidates (extractPOICandidates (allTextOf env body))
      (gatherPlaces env body (extractPOICandidates (allTextOf env body))) = best :: rest := by
    cases hsc : scorePlaceCandidates (extractPOICandidates (allTextOf env body))
        (gatherPlaces env body (extractPOICandidates (allTextOf env body))) with
    | nil => rw [hsc] at hb; exact absurd hb (by simp)
    | cons a t =>
      rw [hsc] at hb
      simp only [List.head?_cons, Option.some.injEq] at hb
      exact ⟨t, by rw [hb]⟩
  constructor
  · intro hscore hok
    rw [processMedia_eq_confirmOut env body best rest hv hc hp hs hscore]
    unfold confirmOut
    rw [if_pos hok]
    refine ⟨rfl, ?_, ?_⟩
    · simp
    · simp
  · intro hscore
    rw [processMedia_eq_needsOut env body best rest hv hc hp hs (not_le.mpr hscore)]
    refine ⟨((best :: rest).take 3).map RespCandidate.ofScored, rfl, ?_, ?_⟩
    · simp only [List.length_map, List.length_take]
      omega
    · intro w hw
      simp only [needsConfirmationOut, List.mem_singleton] at hw
      rw [hw]
      rfl

/-- The place returned by the search provider in the C1 boundary witness. -/
def placeW1 : PlaceResult :=
  ⟨"fool".toList, "addr".toList, 0, 0, "p1".toList, none, none⟩

/-- Environment of the C1 boundary witness: OCR yields the single line
`food`, and the provider returns the place `fool`, whose similarity against
the candidate `food` is exactly `3/4` with no bonuses. -/
def envW1 : Env :=
  { isURL := fun _ => true, useTesseract := false,
    ocr := fun _ => .ok ⟨"food".toList, 1⟩,
    mapsKey := some ("k".toList),
    provider := fun _ => ⟨true, "OK".toList, [placeW1]⟩,
    db := ⟨none, true, "r1".toList, true, true⟩ }

def bodyW1 : ReqBody :=
  ⟨"123e4567-e89b-12d3-a456-426614174000".toList, ["http://f".toList], none, none⟩

/-- Witness for C1 at the exact boundary: a run whose top score is exactly
`3/4` is auto-confirmed. -/
theorem claim_C1_witness :
    (3:Rat)/4 ≤ (3:Rat)/4 ∧
    (processMedia envW1 bodyW1).response = .confirmed ("r1".toList) ((3:Rat)/4) := by
  have h := claim_C1 envW1 bodyW1 ⟨placeW1, 3/4⟩
    (by with_unfolding_all decide) (by with_unfolding_all decide)
    (by with_unfolding_all decide) (by with_unfolding_all decide)
  exact ⟨le_refl _, (h.1 (le_refl _) rfl).1⟩

/-- Claim C3 (amended): a request whose body fails validation (`media_id`
not a UUID or some frame URL invalid) is rejected before any external call —
no OCR call, no place-search call, no store write — but the rejection is
surfaced through the generic top-level catch as a server-error (500)
response, not as a client-error (4xx) response. -/
theorem claim_C3 (env : Env) (body : ReqBody)
    (h : validateReq env.isURL body = false) :
    (processMedia env body).response = .serverError ("Invalid request body".toList) ∧
    (processMedia env body).response.statusCode = 500 ∧
    (processMedia env body).writes = [] ∧
    (processMedia env body).ocrCalls = [] ∧
    (processMedia env body).searchCalls = [] := by
  unfold processMedia
  rw [if_neg (by simp [h])]
  exact ⟨rfl, rfl, rfl, rfl, rfl⟩

/-- Environment of the C3 counterexample and witness (its oracles are never
reached). -/
def envC3 : Env :=
  { isURL := fun _ => true, useTesseract := false,
    ocr := fun _ => .ok ⟨[], 0⟩,
    mapsKey := none,
    provider := fun _ => ⟨true, "OK".toList, []⟩,
    db := ⟨none, true, "r1".toList, true, true⟩ }

/-- A malformed body: `media_id` is not a syntactically valid UUID. -/
def bodyC3 : ReqBody := ⟨"not-a-uuid".toList, [], none, none⟩

/-- Claim C3 counterexample: on a malformed body the handler performs no
external call and no write, but the response carries HTTP status 500, which
is not a client-error (4xx) status — the claim's "client-error response" is
false on the code. -/
theorem claim_C3_counterexample :
    validateReq envC3.isURL bodyC3 = false ∧
    (processMedia envC3 bodyC3).writes = [] ∧
    (processMedia envC3 bodyC3).ocrCalls = [] ∧
    (processMedia envC3 bodyC3).searchCalls = [] ∧
    (processMedia envC3 bodyC3).response.statusCode = 500 ∧
    isClientError (processMedia envC3 bodyC3).response = false := by
  with_unfolding_all decide

/-- Witness for the amended C3 on the concrete malformed body. -/
theorem claim_C3_witness :
    validateReq envC3.isURL bodyC3 = false ∧
    (processMedia envC3 bodyC3).response =
      .serverError ("Invalid request body".toList) := by
  exact ⟨by decide, (claim_C3 envC3 bodyC3 (by decide)).1⟩

/-- Claim C6: when candidate extraction yields the empty list (in particular
on empty aggregated OCR text), the run terminates immediately with a
`needs_confirmation` outcome whose candidate list is empty, the status and
the aggregated normalised text are written to the media row, and the place
search client is never called. -/
theorem claim_C6 (env : Env) (body : ReqBody)
    (hv : validateReq env.isURL body = true)
    (hc : extractPOICandidates (allTextOf env body) = []) :
    (processMedia env body).response =
      .needsConfirmation [] (normalizeText (allTextOf env body)) ∧
    (processMedia env body).writes =
      [.mediaUpdate body.media_id ("needs_confirmation".toList)
        (normalizeText (allTextOf env body)) none env.db.mediaUpdateOk] ∧
    (processMedia env body).searchCalls = [] := by
  unfold processMedia
  rw [if_pos hv, if_pos (by simp [hc])]
  exact ⟨rfl, rfl, rfl⟩

/-- Environment of the C6 witness: OCR succeeds but recognises no text. -/
def envW6 : Env :=
  { isURL := fun _ => true, useTesseract := false,
    ocr := fun _ => .ok ⟨[], 0⟩,
    mapsKey := some ("k".toList),
    provider := fun _ => ⟨true, "OK".toList, []⟩,
    db := ⟨none, true, "r1".toList, true, true⟩ }

def bodyW6 : ReqBody :=
  ⟨"123e4567-e89b-12d3-a456-426614174000".toList, ["http://f".toList], none, none⟩

/-- Witness for C6 on a run with empty OCR text. -/
theorem claim_C6_witness :
    validateReq envW6.isURL bodyW6 = true ∧
    extractPOICandidates (allTextOf envW6 bodyW6) = [] ∧
    (processMedia envW6 bodyW6).response = .needsConfirmation [] [] ∧
    (processMedia envW6 bodyW6).searchCalls = [] := by
  have h := claim_C6 envW6 bodyW6 (by decide) (by decide)
  exact ⟨by decide, by decide, h.1, h.2.2⟩

theorem head?_eq_some_cons {α : Type _} {l : List α} {a : α} (h : l.head? = some a) :
    ∃ t, l = a :: t := by
  cases l with
  | nil => simp at h
  | cons b t =>
    simp only [List.head?_cons, Option.some.injEq] at h
    exact ⟨t, by rw [h]⟩

/-- The environment with the outcome flags of the two writes whose results
the handler never inspects (media status update, cache insert) replaced. -/
def withDbFlags (env : Env) (m c : Bool) : Env :=
  { env with db := { env.db with mediaUpdateOk := m, cacheInsertOk := c } }

theorem withDbFlags_isURL (env : Env) (m c : Bool) :
    (withDbFlags env m c).isURL = env.isURL := rfl

theorem withDbFlags_useTesseract (env : Env) (m c : Bool) :
    (withDbFlags env m c).useTesseract = env.useTesseract := rfl

theorem withDbFlags_mapsKey (env : Env) (m c : Bool) :
    (withDbFlags env m c).mapsKey = env.mapsKey := rfl

theorem allTextOf_withDbFlags (env : Env) (body : ReqBody) (m c : Bool) :
    allTextOf (withDbFlags env m c) body = allTextOf env body := rfl

theorem gatherPlaces_withDbFlags (env : Env) (body : ReqBody) (m c : Bool)
    (cs : List (List Char)) :
    gatherPlaces (withDbFlags env m c) body cs = gatherPlaces env body cs := rfl

/-- The response of the auto-confirm branch is independent of the
media-update and cache-insert outcome flags (and of the recorded calls): it
reads only the restaurant-insert flag and the restaurant id, which
`withDbFlags` preserves. -/
theorem confirmOut_response_withDbFlags (env : Env) (body : ReqBody) (m c : Bool)
    (n : List Char) (cs : List (List Char)) (b : ScoredPlace)
    (o1 s1 o2 s2 : List (List Char)) :
    (confirmOut (withDbFlags env m c) body n cs b o1 s1).response =
      (confirmOut env body n cs b o2 s2).response := by
  unfold confirmOut
  have hflag : (withDbFlags env m c).db.restaurantInsertOk = env.db.restaurantInsertOk :=
    rfl
  cases hok : env.db.restaurantInsertOk with
  | true =>
    rw [if_pos (hflag.trans hok), if_pos rfl]
    rfl
  | false =>
    have h1 : ¬ ((withDbFlags env m c).db.restaurantInsertOk = true) := by
      rw [hflag, hok]; simp
    rw [if_neg h1, if_neg (show ¬ (false = true) by simp)]

/-- In every branch of the handler — rejection, empty candidates, empty
places, auto-confirm, and low-score `needs_confirmation` — the response is
independent of the outcome flags of the media-status update and the cache
insert: the source discards the results of those writes, so the flags never
enter a branch condition. -/
theorem processMedia_response_ignores_flags (env : Env) (body : ReqBody) (m c : Bool) :
    (processMedia (withDbFlags env m c) body).response =
      (processMedia env body).response := by
  unfold processMedia
  simp only [withDbFlags_isURL, withDbFlags_useTesseract, withDbFlags_mapsKey,
    allTextOf_withDbFlags, gatherPlaces_withDbFlags]
  by_cases hv : validateReq env.isURL body = true
  · rw [if_pos hv, if_pos hv]
    by_cases h1 : (extractPOICandidates (allTextOf env body)).isEmpty = true
    · rw [if_pos h1, if_pos h1]
      rfl
    · rw [if_neg h1, if_neg h1]
      by_cases h2 :
          (gatherPlaces env body (extractPOICandidates (allTextOf env body))).isEmpty = true
      · rw [if_pos h2, if_pos h2]
        rfl
      · rw [if_neg h2, if_neg h2]
        cases hhead : ((scorePlaceCandidates (extractPOICandidates (allTextOf env body))
            (gatherPlaces env body
              (extractPOICandidates (allTextOf env body)))).take 3).head? with
        | none => rfl
        | some best =>
          dsimp only
          by_cases hS : (3:Rat)/4 ≤ best.score
          · rw [if_pos hS, if_pos hS]
            exact confirmOut_response_withDbFlags env body m c _ _ best _ _ _ _
          · rw [if_neg hS, if_neg hS]
            rfl
  · rw [if_neg hv, if_neg hv]

/-- Claim C4 (amended): the outcomes of the media-status updates (in every
branch of the handler) and of the cache insert never influence the response —
the source discards the results of those writes — so a `confirmed` or
`needs_confirmation` response can be returned even though the corresponding
status write failed; the only persistence failure that is surfaced is a
failure of the restaurant-record insert in the auto-confirm branch, which
yields a 500 server error with no media update or cache write attempted
after it. -/
theorem claim_C4 (env : Env) (body : ReqBody) :
    (∀ m c : Bool,
      (processMedia (withDbFlags env m c) body).response =
        (processMedia env body).response) ∧
    (∀ best : ScoredPlace,
      validateReq env.isURL body = true →
      extractPOICandidates (allTextOf env body) ≠ [] →
      gatherPlaces env body (extractPOICandidates (allTextOf env body)) ≠ [] →
      (scorePlaceCandidates (extractPOICandidates (allTextOf env body))
          (gatherPlaces env body (extractPOICandidates (allTextOf env body)))).head? =
        some best →
      3/4 ≤ best.score →
      env.db.restaurantInsertOk = false →
      (processMedia env body).response =
        .serverError ("Failed to create restaurant".toList) ∧
      (processMedia env body).writes =
        [.restaurantInsert best.place.name best.place.address best.place.lat
          best.place.lng best.place.place_id env.db.userId false]) := by
  constructor
  · exact fun m c => processMedia_response_ignores_flags env body m c
  · intro best hv hc hp hb hscore hfail
    obtain ⟨rest, hs⟩ := head?_eq_some_cons hb
    rw [processMedia_eq_confirmOut env body best rest hv hc hp hs hscore]
    unfold confirmOut
    rw [if_neg (by simp [hfail])]
    exact ⟨rfl, rfl⟩

/-- The place used by the C4 counterexample and witness runs. -/
def placeC4 : PlaceResult :=
  ⟨"food".toList, "addr".toList, 0, 0, "p1".toList, none, none⟩

/-- Environment of the C4 counterexample: the restaurant insert succeeds but
the store reports a failure for the media status update. -/
def envC4 : Env :=
  { isURL := fun _ => true, useTesseract := false,
    ocr := fun _ => .ok ⟨"food".toList, 1⟩,
    mapsKey := some ("k".toList),
    provider := fun _ => ⟨true, "OK".toList, [placeC4]⟩,
    db := ⟨none, true, "r1".toList, false, true⟩ }

def bodyC4 : ReqBody :=
  ⟨"123e4567-e89b-12d3-a456-426614174000".toList, ["http://f".toList], none, none⟩

/-- Claim C4 counterexample: a run in which the status write to `done` fails
still returns the `confirmed` response — the handler never reads the result
of the media update — so "a 'confirmed' response is returned only if the
status write to 'done' succeeded" is false on the code. -/
theorem claim_C4_counterexample :
    (processMedia envC4 bodyC4).response = .confirmed ("r1".toList) 1 ∧
    DbWrite.mediaUpdate bodyC4.media_id ("done".toList)
      (normalizeText (allTextOf envC4 bodyC4)) (some ("r1".toList)) false ∈
      (processMedia envC4 bodyC4).writes := by
  with_unfolding_all decide

/-- Environment of the C4 witness: the restaurant insert itself fails. -/
def envW4 : Env :=
  { isURL := fun _ => true, useTesseract := false,
    ocr := fun _ => .ok ⟨"food".toList, 1⟩,
    mapsKey := some ("k".toList),
    provider := fun _ => ⟨true, "OK".toList, [placeC4]⟩,
    db := ⟨none, false, "r1".toList, true, true⟩ }

def bodyW4 : ReqBody :=
  ⟨"123e4567-e89b-12d3-a456-426614174000".toList, ["http://f".toList], none, none⟩

/-- Witness for the amended C4: on a concrete run the response is unchanged
when the media-update and cache-insert flags are flipped, and a failing
restaurant insert is surfaced as a 500 error. -/
theorem claim_C4_witness :
    (processMedia (withDbFlags envC4 false false) bodyC4).response =
      (processMedia envC4 bodyC4).response ∧
    envW4.db.restaurantInsertOk = false ∧
    (processMedia envW4 bodyW4).response =
      .serverError ("Failed to create restaurant".toList) := by
  have h1 := (claim_C4 envC4 bodyC4).1 false false
  have h2 := (claim_C4 envW4 bodyW4).2 ⟨placeC4, 1⟩
    (by with_unfolding_all decide) (by with_unfolding_all decide)
    (by with_unfolding_all decide) (by with_unfolding_all decide)
    (by with_unfolding_all decide) rfl
  exact ⟨h1, rfl, h2.1⟩

/-- Claim C8 (amended): in every auto-confirmed run the cache entry written
pairs the lower-cased FIRST extracted candidate (extraction order) — not
necessarily the candidate that achieved the winning similarity — with the
run's locality hint (country, city) and the winning place's fields and
score. -/
theorem claim_C8 (env : Env) (body : ReqBody) (best : ScoredPlace)
    (hv : validateReq env.isURL body = true)
    (hc : extractPOICandidates (allTextOf env body) ≠ [])
    (hp : gatherPlaces env body (extractPOICandidates (allTextOf env body)) ≠ [])
    (hb : (scorePlaceCandidates (extractPOICandidates (allTextOf env body))
        (gatherPlaces env body (extractPOICandidates (allTextOf env body)))).head? =
      some best)
    (hscore : 3/4 ≤ best.score)
    (hok : env.db.restaurantInsertOk = true) :
    DbWrite.cacheInsert
      (((extractPOICandidates (allTextOf env body)).headD []).map Char.toLower)
      body.country body.city best.place.place_id best.place.name best.place.address
      best.place.lat best.place.lng best.score env.db.cacheInsertOk ∈
      (processMedia env body).writes := by
  obtain ⟨rest, hs⟩ := head?_eq_some_cons hb
  rw [processMedia_eq_confirmOut env body best rest hv hc hp hs hscore]
  unfold confirmOut
  rw [if_pos hok]
  simp

/-- The place confirmed in the C8 counterexample run. -/
def placeC8 : PlaceResult :=
  ⟨"sushi".toList, "addr".toList, 0, 0, "p1".toList, none, none⟩

/-- Environment of the C8 counterexample: two candidate lines `taco` and
`sushi`; only the search for `taco` returns a place, named `sushi`. -/
def envC8 : Env :=
  { isURL := fun _ => true, useTesseract := false,
    ocr := fun _ => .ok ⟨"taco\nsushi".toList, 1⟩,
    mapsKey := some ("k".toList),
    provider := fun q =>
      if q = "taco".toList then ⟨true, "OK".toList, [placeC8]⟩
      else ⟨true, "OK".toList, []⟩,
    db := ⟨none, true, "r1".toList, true, true⟩ }

def bodyC8 : ReqBody :=
  ⟨"123e4567-e89b-12d3-a456-426614174000".toList, ["http://f".toList], none, none⟩

/-- Claim C8 counterexample: an auto-confirmed run whose candidates are
`["taco", "sushi"]` and whose winning candidate — the unique maximiser of
the similarity against the confirmed place `sushi` — is `sushi`, yet the
cache entry is written with `normalized_query = "taco"`, the first
candidate; the claim that the winning candidate is cached is false on the
code. -/
theorem claim_C8_counterexample :
    extractPOICandidates (allTextOf envC8 bodyC8) = ["taco".toList, "sushi".toList] ∧
    calculateSimilarity ("sushi".toList) ("sushi".toList) = 1 ∧
    calculateSimilarity ("taco".toList) ("sushi".toList) < 1 ∧
    (processMedia envC8 bodyC8).response = .confirmed ("r1".toList) 1 ∧
    (processMedia envC8 bodyC8).writes =
      [DbWrite.restaurantInsert ("sushi".toList) ("addr".toList) 0 0 ("p1".toList)
        none true,
       DbWrite.mediaUpdate bodyC8.media_id ("done".toList) ("taco sushi".toList)
        (some ("r1".toList)) true,
       DbWrite.cacheInsert ("taco".toList) none none ("p1".toList) ("sushi".toList)
        ("addr".toList) 0 0 1 true] := by
  with_unfolding_all decide

/-- Witness for the amended C8 on the concrete auto-confirmed run. -/
theorem claim_C8_witness :
    DbWrite.cacheInsert ("taco".toList) none none ("p1".toList) ("sushi".toList)
      ("addr".toList) 0 0 1 true ∈ (processMedia envC8 bodyC8).writes := by
  have h := claim_C8 envC8 bodyC8 ⟨placeC8, 1⟩
    (by with_unfolding_all decide) (by with_unfolding_all decide)
    (by with_unfolding_all decide) (by with_unfolding_all decide)
    (by with_unfolding_all decide) rfl
  exact h

theorem isUpperAZ_toLower (c : Char) : isUpperAZ (Char.toLower c) = false := by
  unfold Char.toLower
  dsimp only
  split
  · rename_i h
    have hn : 65 ≤ c.toNat ∧ c.toNat ≤ 90 := ⟨h.1, h.2⟩
    have hv : (c.toNat + 32).isValidChar := Or.inl (by omega)
    rw [show Char.ofNat (c.toNat + 32) = Char.ofNatAux (c.toNat + 32) hv from dif_pos hv]
    have ht : (Char.ofNatAux (c.toNat + 32) hv).toNat = c.toNat + 32 := rfl
    unfold isUpperAZ
    rw [ht]
    have : ¬ (c.toNat + 32 ≤ 90) := by omega
    simp [this]
  · rename_i h
    simp only [isUpperAZ, Bool.and_eq_false_iff, decide_eq_false_iff_not]
    omega

theorem splitLines_ne_nil (t : List Char) : splitLines t ≠ [] := by
  induction t with
  | nil => simp [splitLines]
  | cons c cs ih =>
    rw [splitLines]
    split
    · simp
    · cases h : splitLines cs with
      | nil => exact absurd h ih
      | cons l ls => simp

theorem mem_of_mem_splitLines {t l : List Char} (hl : l ∈ splitLines t) :
    ∀ c ∈ l, c ∈ t := by
  induction t generalizing l with
  | nil =>
    simp only [splitLines, List.mem_singleton] at hl
    subst hl
    simp
  | cons a t ih =>
    rw [splitLines] at hl
    by_cases ha : a = '\n'
    · rw [if_pos ha] at hl
      rcases List.mem_cons.mp hl with rfl | hl2
      · simp
      · intro c hc
        exact List.mem_cons_of_mem _ (ih hl2 c hc)
    · rw [if_neg ha] at hl
      cases hsp : splitLines t with
      | nil => exact absurd hsp (splitLines_ne_nil t)
      | cons l0 ls =>
        rw [hsp] at hl
        rcases List.mem_cons.mp hl with rfl | hl2
        · intro c hc
          rcases List.mem_cons.mp hc with rfl | hc2
          · exact List.mem_cons_self c t
          · have hm : l0 ∈ splitLines t := by
              rw [hsp]; exact List.mem_cons_self l0 ls
            exact List.mem_cons_of_mem _ (ih hm c hc2)
        · intro c hc
          have hm : l ∈ splitLines t := by
            rw [hsp]; exact List.mem_cons_of_mem _ hl2
          exact List.mem_cons_of_mem _ (ih hm c hc)

theorem mem_of_mem_trimWs {l : List Char} {c : Char} (h : c ∈ trimWs l) : c ∈ l := by
  unfold trimWs at h
  have h1 := List.mem_reverse.mp h
  have h2 := (List.dropWhile_sublist _).subset h1
  have h3 := List.mem_reverse.mp h2
  exact (List.dropWhile_sublist _).subset h3

theorem isTitleCaseLine_false_of_no_upper {line : List Char}
    (hline : ∀ c ∈ line, isUpperAZ c = false) : isTitleCaseLine line = false := by
  cases line with
  | nil => rfl
  | cons c cs =>
    rw [isTitleCaseLine, hline c (List.mem_cons_self c cs)]
    rfl

/-- Claim C10: the text fed to candidate extraction is the lower-cased join
of the frame texts, so no processed line can match the Title Case pattern
`^[A-Z][a-z]+(\s+[A-Z][a-z]+)*$`; consequently every candidate the pipeline
produces contains a food keyword (case-insensitively) or an `@`/`#`
indicator — the Title Case criterion never selects a line on its own within
the pipeline. -/
theorem claim_C10 (env : Env) (body : ReqBody) :
    (∀ l ∈ poiLines (allTextOf env body), isTitleCaseLine l = false) ∧
    (∀ c ∈ pipelineCandidates env body,
      (FOOD_KEYWORDS.any fun kw =>
        containsSub (kw.map Char.toLower) (c.map Char.toLower)) = true ∨
      c.contains '@' = true ∨ c.contains '#' = true) := by
  have hlow : ∀ ch ∈ allTextOf env body, isUpperAZ ch = false := by
    intro ch hch
    obtain ⟨x, _, rfl⟩ := List.mem_map.mp hch
    exact isUpperAZ_toLower x
  have htitle : ∀ l ∈ poiLines (allTextOf env body), isTitleCaseLine l = false := by
    intro l hl
    have hl2 : l ∈ (splitLines (allTextOf env body)).map trimWs :=
      List.mem_of_mem_filter hl
    obtain ⟨l0, hl0, rfl⟩ := List.mem_map.mp hl2
    refine isTitleCaseLine_false_of_no_upper ?_
    intro c hc
    exact hlow c (mem_of_mem_splitLines hl0 c (mem_of_mem_trimWs hc))
  refine ⟨htitle, ?_⟩
  intro c hc
  have hcf : c ∈ filteredPOILines (allTextOf env body) :=
    ((mem_dedupFirst c _ _).mp hc).1
  have hq : lineQualifies c = true := List.of_mem_filter hcf
  have hcl : c ∈ poiLines (allTextOf env body) := List.mem_of_mem_filter hcf
  have ht : isTitleCaseLine c = false := htitle c hcl
  simp only [lineQualifies, ht, Bool.false_and, Bool.or_false, Bool.and_eq_true,
    Bool.or_eq_true, Bool.not_eq_true'] at hq
  rcases hq.1.1 with h | h
  · exact Or.inl h
  · rcases h with h | h
    · exact Or.inr (Or.inl h)
    · exact Or.inr (Or.inr h)

/-- The place used by the C2 witness: a high rating and a matching category,
so both bonuses apply. -/
def placeW2 : PlaceResult :=
  ⟨"sushi bar".toList, "addr".toList, 0, 0, "p2".toList, some (9/2),
    some ["restaurant".toList]⟩

/-- Witness for C2 on a two-candidate, one-place instance. -/
theorem claim_C2_witness :
    (["taco".toList, "sushi bar".toList] ≠ ([] : List (List Char))) ∧
    ∀ e ∈ scorePlaceCandidates ["taco".toList, "sushi bar".toList] [placeW2],
      (∀ c ∈ ["taco".toList, "sushi bar".toList],
        calculateSimilarity c e.place.name ≤
          maxSimilarity ["taco".toList, "sushi bar".toList] e.place.name) ∧
      (∃ c ∈ ["taco".toList, "sushi bar".toList],
        maxSimilarity ["taco".toList, "sushi bar".toList] e.place.name =
          calculateSimilarity c e.place.name) ∧
      e.score = maxSimilarity ["taco".toList, "sushi bar".toList] e.place.name +
        ((if typesBonusHolds e.place then (1 : Rat)/10 else 0) +
         (if ratingBonusHolds e.place then (1 : Rat)/10 else 0)) := by
  exact ⟨by decide, claim_C2 _ _ (by decide)⟩

/-- Environment of the C7 witness: the provider answers with HTTP success
but the provider status `ZERO_RESULTS`. -/
def envW7 : Env :=
  { isURL := fun _ => true, useTesseract := false,
    ocr := fun _ => .ok ⟨[], 0⟩,
    mapsKey := some ("k".toList),
    provider := fun _ => ⟨true, "ZERO_RESULTS".toList, []⟩,
    db := ⟨none, true, "r1".toList, true, true⟩ }

/-- Witness for C7 on a concrete non-success provider status. -/
theorem claim_C7_witness :
    envW7.mapsKey = some ("k".toList) ∧
    (envW7.provider (buildSearchQuery ("taco".toList) none)).httpOk = true ∧
    (envW7.provider (buildSearchQuery ("taco".toList) none)).status ≠ "OK".toList ∧
    searchPlaces envW7 ("taco".toList) none none = .ok ([], true) := by
  exact ⟨rfl, rfl, by decide,
    claim_C7 envW7 ("taco".toList) none none ("k".toList) rfl rfl (by decide)⟩

end MapBites
